import Mathlib

/-!
# Commit-list row formatting (`pkg/gui/presentation/commits.go`)

A shallow embedding of the commit-list presentation code of lazygit and
theorems about it.

Go strings are Lean `String`s.  `color.Attribute` is an integer, so it is a
`Nat` here; a `*color.Color` built by `color.New(a, b, ...)` is the list of its
attributes.  The map `cherryPickedCommitShaMap map[string]bool` is its lookup
function `String → Bool` (a key that is absent reads as `false`).

The source file calls into packages whose code is not part of it: the colour
library (`Sprint`), the theme (`DefaultTextColor`, `DiffTerminalColor`), the
`utils` helpers and `Commit.ShortSha`.  They are the fields of `Deps`, every
function of the file takes a `Deps`, and the theorems hold for every `Deps`.
`stdDeps` is one concrete `Deps`, used to evaluate the code on inputs.

`parts[0] = actionString + parts[0]` panics on an empty slice, so
`getDisplayStringsForCommit` and `GetCommitListDisplayStrings` return an
`Option`, with `none` for the panic.
-/

namespace Presentation

/-! ## Data model -/

/-- The integer type `color.Attribute`. -/
abbrev Attribute := Nat

/-- The attribute `color.Bold`. -/
def Bold : Attribute := 1
/-- The attribute `color.FgRed`. -/
def FgRed : Attribute := 31
/-- The attribute `color.FgGreen`. -/
def FgGreen : Attribute := 32
/-- The attribute `color.FgYellow`. -/
def FgYellow : Attribute := 33
/-- The attribute `color.FgBlue`. -/
def FgBlue : Attribute := 34
/-- The attribute `color.FgMagenta`. -/
def FgMagenta : Attribute := 35
/-- The attribute `color.FgCyan`. -/
def FgCyan : Attribute := 36
/-- The attribute `color.FgWhite`. -/
def FgWhite : Attribute := 37
/-- The attribute `color.BgBlue`. -/
def BgBlue : Attribute := 44

/-- The fields of `models.Commit` that the presentation code reads. -/
structure Commit where
  Sha : String
  Name : String
  Status : String
  Action : String
  Tags : List String
  ExtraInfo : String
  Author : String
  UnixTimestamp : Int
  deriving DecidableEq, Repr

/-- What `commits.go` imports from other packages. `Sprint attrs s` is
`color.New(attrs...).Sprint(s)`; `ShortSha` is the method `Commit.ShortSha`,
a function of the commit's `Sha`. -/
structure Deps where
  DefaultTextColor : Attribute
  DiffTerminalColor : Attribute
  Sprint : List Attribute → String → String
  UnixToDate : Int → String
  TruncateWithEllipsis : String → Nat → String
  WithPadding : String → Nat → String
  ColoredStringDirect : String → List Attribute → String
  ShortSha : String → String

/-- The call `strings.Split(s, sep)` for a separator of one character: the
pieces of `s` between the occurrences of `sep`, `[""]` for the empty string. -/
def stringsSplit (s : String) (sep : Char) : List String :=
  (s.data.splitOn sep).map String.mk

/-- The call `strings.Join(elems, sep)`. -/
def stringsJoin (elems : List String) (sep : String) : String :=
  String.mk (sep.data.intercalate (elems.map String.data))

/-! ## Template keys -/

/-- The string type `CommitTemplateKey`. -/
abbrev CommitTemplateKey := String

/-- The key `"short-sha"`. -/
def ShortShaCommitKey : CommitTemplateKey := "short-sha"
/-- The key `"message"`. -/
def MessageCommitKey : CommitTemplateKey := "message"
/-- The key `"author"`. -/
def AuthorCommitKey : CommitTemplateKey := "author"

/-- The keys of the map `allowedCommitTemplateKeys`. -/
def allowedCommitTemplateKeys : List CommitTemplateKey :=
  [ShortShaCommitKey, MessageCommitKey, AuthorCommitKey]

/-- The method `CommitTemplateKey.IsValid`: the key is in the map. -/
def IsValid (key : CommitTemplateKey) : Bool :=
  allowedCommitTemplateKeys.contains key

/-- The function `getListOfAllowedPartsFromCommitTemplate`: split on `|`,
append every valid piece in turn, and fall back to the default when nothing
was appended. -/
def getListOfAllowedPartsFromCommitTemplate (commitTemplate : String) :
    List CommitTemplateKey :=
  let parts := stringsSplit commitTemplate '|'
  let allowedParts := parts.foldl
    (fun allowedParts part => if IsValid part then allowedParts ++ [part] else allowedParts) []
  if allowedParts.length = 0 then [ShortShaCommitKey, MessageCommitKey] else allowedParts

/-- The function `actionColorMap`. -/
def actionColorMap (str : String) : Attribute :=
  if str = "pick" then FgCyan
  else if str = "drop" then FgRed
  else if str = "edit" then FgGreen
  else if str = "fixup" then FgMagenta
  else FgYellow

/-! ## Rows -/

/-- The function `getFullDescriptionDisplayStringsForCommit`. -/
def getFullDescriptionDisplayStringsForCommit (E : Deps) (c : Commit)
    (cherryPickedCommitShaMap : String → Bool) (diffed : Bool) (_commitTemplate : String) :
    List String :=
  let red := [FgRed]
  let yellow := [FgYellow]
  let green := [FgGreen]
  let blue := [FgBlue]
  let defaultColor := [E.DefaultTextColor]
  let diffedColor := [E.DiffTerminalColor]
  let copied := [FgCyan, BgBlue]
  let shaColor :=
    if c.Status = "unpushed" then red
    else if c.Status = "pushed" then yellow
    else if c.Status = "merged" then green
    else if c.Status = "rebasing" then blue
    else if c.Status = "reflog" then blue
    else defaultColor
  let shaColor :=
    if diffed then diffedColor
    else if cherryPickedCommitShaMap c.Sha then copied
    else shaColor
  let tagString := ""
  let secondColumnString := E.Sprint blue (E.UnixToDate c.UnixTimestamp)
  let (tagString, secondColumnString) :=
    if c.Action ≠ "" then
      (tagString, E.Sprint [actionColorMap c.Action] c.Action)
    else if c.ExtraInfo ≠ "" then
      (E.ColoredStringDirect c.ExtraInfo [FgMagenta, Bold] ++ " ", secondColumnString)
    else (tagString, secondColumnString)
  let truncatedAuthor := E.TruncateWithEllipsis c.Author 17
  [E.Sprint shaColor (E.ShortSha c.Sha), secondColumnString, E.Sprint yellow truncatedAuthor,
    tagString ++ E.Sprint defaultColor c.Name]

/-- The function `getDisplayStringsForCommit`; `none` is the panic of
`parts[0]` on an empty `parts`. -/
def getDisplayStringsForCommit (E : Deps) (c : Commit)
    (cherryPickedCommitShaMap : String → Bool) (diffed : Bool) (commitTemplate : String) :
    Option (List String) :=
  let red := [FgRed]
  let yellow := [FgYellow]
  let green := [FgGreen]
  let blue := [FgBlue]
  let defaultColor := [E.DefaultTextColor]
  let diffedColor := [E.DiffTerminalColor]
  let copied := [FgCyan, BgBlue]
  let shaColor :=
    if c.Status = "unpushed" then red
    else if c.Status = "pushed" then yellow
    else if c.Status = "merged" then green
    else if c.Status = "rebasing" then blue
    else if c.Status = "reflog" then blue
    else defaultColor
  let shaColor :=
    if diffed then diffedColor
    else if cherryPickedCommitShaMap c.Sha then copied
    else shaColor
  let actionString := ""
  let tagString := ""
  let (actionString, tagString) :=
    if c.Action ≠ "" then
      (E.Sprint [actionColorMap c.Action] (E.WithPadding c.Action 7) ++ " ", tagString)
    else if c.Tags.length > 0 then
      (actionString, E.ColoredStringDirect (stringsJoin c.Tags " ") [FgMagenta, Bold] ++ " ")
    else (actionString, tagString)
  let commitTemplateParts := getListOfAllowedPartsFromCommitTemplate commitTemplate
  let parts := commitTemplateParts.foldl
    (fun parts key =>
      if key = ShortShaCommitKey then parts ++ [E.Sprint shaColor (E.ShortSha c.Sha)]
      else if key = MessageCommitKey then parts ++ [tagString ++ E.Sprint defaultColor c.Name]
      else if key = AuthorCommitKey then
        parts ++ [E.Sprint yellow (E.TruncateWithEllipsis c.Author 17)]
      else parts) []
  match parts with
  | [] => none
  | first :: rest => some ((actionString ++ first) :: rest)

/-- The loop of `GetCommitListDisplayStrings`: one row per commit, in order;
a panic of `displayFunc` ends the call. -/
def displayLoop (displayFunc : Commit → (String → Bool) → Bool → String → Option (List String))
    (cherryPickedCommitShaMap : String → Bool) (diffName commitTemplate : String) :
    List Commit → Option (List (List String))
  | [] => some []
  | c :: cs =>
    let diffed := c.Sha == diffName
    match displayFunc c cherryPickedCommitShaMap diffed commitTemplate with
    | none => none
    | some line =>
      match displayLoop displayFunc cherryPickedCommitShaMap diffName commitTemplate cs with
      | none => none
      | some lines => some (line :: lines)

/-- The function `GetCommitListDisplayStrings`. -/
def GetCommitListDisplayStrings (E : Deps) (commits : List Commit) (fullDescription : Bool)
    (cherryPickedCommitShaMap : String → Bool) (diffName commitTemplate : String) :
    Option (List (List String)) :=
  let displayFunc : Commit → (String → Bool) → Bool → String → Option (List String) :=
    if fullDescription then
      fun c m d t => some (getFullDescriptionDisplayStringsForCommit E c m d t)
    else getDisplayStringsForCommit E
  displayLoop displayFunc cherryPickedCommitShaMap diffName commitTemplate commits

/-! ## The values of the local variables, for the statements -/

/-- The value of `actionString` in `getDisplayStringsForCommit`: empty for an
empty action, otherwise the action padded to 7, in the colour of the action,
and one space. -/
def actionLabel (E : Deps) (c : Commit) : String :=
  if c.Action = "" then ""
  else E.Sprint [actionColorMap c.Action] (E.WithPadding c.Action 7) ++ " "

/-- The value of `tagString` in `getDisplayStringsForCommit`: the tags joined
by a space, bold magenta, and one space, when the action is empty and there is
a tag; empty otherwise. -/
def tagLabel (E : Deps) (c : Commit) : String :=
  if c.Action = "" ∧ c.Tags ≠ [] then
    E.ColoredStringDirect (stringsJoin c.Tags " ") [FgMagenta, Bold] ++ " "
  else ""

/-- The style that the status alone gives to the short identifier. -/
def statusStyle (E : Deps) (status : String) : List Attribute :=
  if status = "unpushed" then [FgRed]
  else if status = "pushed" then [FgYellow]
  else if status = "merged" then [FgGreen]
  else if status = "rebasing" then [FgBlue]
  else if status = "reflog" then [FgBlue]
  else [E.DefaultTextColor]

/-- The style of the short identifier: diffed first, then copied, then the
status. -/
def shaStyle (E : Deps) (c : Commit) (cherryPickedCommitShaMap : String → Bool)
    (diffed : Bool) : List Attribute :=
  if diffed then [E.DiffTerminalColor]
  else if cherryPickedCommitShaMap c.Sha then [FgCyan, BgBlue]
  else statusStyle E c.Status

/-- What one key of the template is rendered to, before the action label is
put in front of the first column. -/
def templateColumn (E : Deps) (c : Commit) (cherryPickedCommitShaMap : String → Bool)
    (diffed : Bool) (key : CommitTemplateKey) : String :=
  if key = ShortShaCommitKey then
    E.Sprint (shaStyle E c cherryPickedCommitShaMap diffed) (E.ShortSha c.Sha)
  else if key = MessageCommitKey then
    tagLabel E c ++ E.Sprint [E.DefaultTextColor] c.Name
  else E.Sprint [FgYellow] (E.TruncateWithEllipsis c.Author 17)

/-- The table of the status styles, as a relation: `unpushed` gives red,
`pushed` yellow, `merged` green, `rebasing` and `reflog` blue, and any other
status, the empty one too, the default text style. -/
def StatusGives (E : Deps) (status : String) (style : List Attribute) : Prop :=
  (status = "unpushed" ∧ style = [FgRed])
  ∨ (status = "pushed" ∧ style = [FgYellow])
  ∨ (status = "merged" ∧ style = [FgGreen])
  ∨ (status = "rebasing" ∧ style = [FgBlue])
  ∨ (status = "reflog" ∧ style = [FgBlue])
  ∨ (status ∉ ["unpushed", "pushed", "merged", "rebasing", "reflog"]
      ∧ style = [E.DefaultTextColor])

/-! ## One concrete set of dependencies -/

/-- The colour library's `Sprint` with colours switched on: the escape
sequence that sets the attributes, the text, the escape sequence that resets
them. -/
def ansiSprint (attrs : List Attribute) (s : String) : String :=
  "\x1b[" ++ stringsJoin (attrs.map Nat.repr) ";" ++ "m" ++ s ++ "\x1b[0m"

/-- Modelled from the spec: `utils.TruncateWithEllipsis` is not in the source
file; the text is kept when it has at most `limit` characters and otherwise
cut so that, with one ellipsis character in place of the overflow, it has
`limit` characters. -/
def TruncateWithEllipsis (str : String) (limit : Nat) : String :=
  if str.length ≤ limit then str else String.mk (str.data.take (limit - 1)) ++ "…"

/-- Modelled from the spec: `utils.WithPadding` is not in the source file;
the text is padded with spaces on the right to the given width. -/
def WithPadding (str : String) (padding : Nat) : String :=
  str ++ String.mk (List.replicate (padding - str.length) ' ')

/-- Modelled from the spec: `utils.ColoredStringDirect` is not in the source
file; the text in the given style. -/
def ColoredStringDirect (str : String) (colour : List Attribute) : String :=
  ansiSprint colour str

/-- Modelled from the spec: `Commit.ShortSha` is not in the source file; a
truncated form of the full hash, here its first 8 characters. -/
def ShortSha (sha : String) : String :=
  String.mk (sha.data.take 8)

/-- A concrete `Deps`: white text, magenta for the diffed commit, escape
sequences for the styles. The date formatter is left out of the model and the
timestamp is printed as a number of seconds. -/
def stdDeps : Deps where
  DefaultTextColor := FgWhite
  DiffTerminalColor := FgMagenta
  Sprint := ansiSprint
  UnixToDate := fun t => (Int.toNat t).repr
  TruncateWithEllipsis := TruncateWithEllipsis
  WithPadding := WithPadding
  ColoredStringDirect := ColoredStringDirect
  ShortSha := ShortSha

/-- The dependencies of `stdDeps` with the colours switched off: a style
leaves the text as it is, so a column is its visible text. -/
def plainDeps : Deps where
  DefaultTextColor := FgWhite
  DiffTerminalColor := FgMagenta
  Sprint := fun _ s => s
  UnixToDate := fun t => (Int.toNat t).repr
  TruncateWithEllipsis := TruncateWithEllipsis
  WithPadding := WithPadding
  ColoredStringDirect := fun s _ => s
  ShortSha := ShortSha

/-- The lookup function of the empty cherry-pick map. -/
def noCherryPicks : String → Bool := fun _ => false

/-- A commit with no action, no tags and no extra information. -/
def sampleCommit (sha status : String) : Commit :=
  { Sha := sha, Name := "fix", Status := status, Action := "", Tags := [],
    ExtraInfo := "", Author := "ann", UnixTimestamp := 0 }

/-! ## Template parsing: lemmas -/

theorem foldl_allowed (parts acc : List String) :
    parts.foldl (fun allowedParts part =>
      if IsValid part then allowedParts ++ [part] else allowedParts) acc
      = acc ++ parts.filter IsValid := by
  induction parts generalizing acc with
  | nil => simp
  | cons p ps ih =>
    by_cases hp : IsValid p = true
    · simp [List.foldl_cons, ih, hp]
    · simp [List.foldl_cons, ih, hp]

theorem getList_eq (s : String) :
    getListOfAllowedPartsFromCommitTemplate s
      = if (stringsSplit s '|').filter IsValid = [] then [ShortShaCommitKey, MessageCommitKey]
        else (stringsSplit s '|').filter IsValid := by
  unfold getListOfAllowedPartsFromCommitTemplate
  simp only [foldl_allowed, List.nil_append, List.length_eq_zero]

theorem isValid_iff (k : String) :
    IsValid k = true ↔ k = "short-sha" ∨ k = "message" ∨ k = "author" := by
  simp [IsValid, allowedCommitTemplateKeys, ShortShaCommitKey, MessageCommitKey,
    AuthorCommitKey]

theorem getList_ne_nil (s : String) : getListOfAllowedPartsFromCommitTemplate s ≠ [] := by
  rw [getList_eq]
  split
  · simp
  · assumption

theorem getList_valid (s : String) :
    ∀ k ∈ getListOfAllowedPartsFromCommitTemplate s, IsValid k = true := by
  intro k hk
  rw [getList_eq] at hk
  split at hk
  · simp at hk
    rcases hk with h | h <;> subst h <;> decide
  · exact (List.mem_filter.mp hk).2

/-! ## Rows: lemmas -/

theorem foldl_columns (a b d : String) (ks acc : List String)
    (hks : ∀ k ∈ ks, IsValid k = true) :
    ks.foldl (fun parts key =>
      if key = ShortShaCommitKey then parts ++ [a]
      else if key = MessageCommitKey then parts ++ [b]
      else if key = AuthorCommitKey then parts ++ [d]
      else parts) acc
      = acc ++ ks.map (fun key =>
          if key = ShortShaCommitKey then a else if key = MessageCommitKey then b else d) := by
  induction ks generalizing acc with
  | nil => simp
  | cons k ks ih =>
    have hk : IsValid k = true := hks k (List.mem_cons_self _ _)
    have hks2 : ∀ x ∈ ks, IsValid x = true := fun x hx => hks x (List.mem_cons_of_mem _ hx)
    rw [List.foldl_cons, ih _ hks2]
    rw [isValid_iff] at hk
    have e1 : MessageCommitKey ≠ ShortShaCommitKey := by decide
    have e2 : AuthorCommitKey ≠ ShortShaCommitKey := by decide
    have e3 : AuthorCommitKey ≠ MessageCommitKey := by decide
    rcases hk with h | h | h
    · have h1 : k = ShortShaCommitKey := h
      simp [h1]
    · have h2 : k = MessageCommitKey := h
      simp [h2, e1]
    · have h3 : k = AuthorCommitKey := h
      simp [h3, e2, e3]

theorem getDisplay_eq (E : Deps) (c : Commit) (m : String → Bool) (d : Bool) (t : String) :
    getDisplayStringsForCommit E c m d t
      = match getListOfAllowedPartsFromCommitTemplate t with
        | [] => none
        | k :: ks => some ((actionLabel E c ++ templateColumn E c m d k)
            :: ks.map (templateColumn E c m d)) := by
  unfold getDisplayStringsForCommit
  simp only []
  rw [foldl_columns _ _ _ _ _ (getList_valid t)]
  have hmap : ∀ (sc : List Attribute) (tg : String),
      sc = shaStyle E c m d → tg = tagLabel E c →
      (fun key : String => if key = ShortShaCommitKey then E.Sprint sc (E.ShortSha c.Sha)
        else if key = MessageCommitKey then tg ++ E.Sprint [E.DefaultTextColor] c.Name
        else E.Sprint [FgYellow] (E.TruncateWithEllipsis c.Author 17))
      = templateColumn E c m d := by
    intro sc tg h1 h2
    funext key
    simp [templateColumn, h1, h2]
  have hsc : (if d = true then [E.DiffTerminalColor]
      else if m c.Sha = true then [FgCyan, BgBlue]
      else if c.Status = "unpushed" then [FgRed]
      else if c.Status = "pushed" then [FgYellow]
      else if c.Status = "merged" then [FgGreen]
      else if c.Status = "rebasing" then [FgBlue]
      else if c.Status = "reflog" then [FgBlue] else [E.DefaultTextColor])
      = shaStyle E c m d := by
    simp [shaStyle, statusStyle]
  have htg : (if c.Action ≠ "" then
        (E.Sprint [actionColorMap c.Action] (E.WithPadding c.Action 7) ++ " ", "")
      else if c.Tags.length > 0 then
        ("", E.ColoredStringDirect (stringsJoin c.Tags " ") [FgMagenta, Bold] ++ " ")
      else ("", "")) = (actionLabel E c, tagLabel E c) := by
    by_cases hA : c.Action = ""
    · by_cases hT : c.Tags = []
      · simp [actionLabel, tagLabel, hA, hT]
      · have hpos : c.Tags.length > 0 := List.length_pos.mpr hT
        simp [actionLabel, tagLabel, hA, hT, hpos]
    · simp [actionLabel, tagLabel, hA]
  rw [hsc, htg, hmap _ _ rfl rfl]
  cases getListOfAllowedPartsFromCommitTemplate t with
  | nil => rfl
  | cons k ks => simp

theorem getDisplay_row (E : Deps) (c : Commit) (m : String → Bool) (d : Bool) (t : String) :
    ∃ row, getDisplayStringsForCommit E c m d t = some row
      ∧ row.length = (getListOfAllowedPartsFromCommitTemplate t).length
      ∧ ∀ j key, (getListOfAllowedPartsFromCommitTemplate t)[j]? = some key →
          row[j]? = some ((if j = 0 then actionLabel E c else "") ++ templateColumn E c m d key) := by
  rw [getDisplay_eq]
  have hne := getList_ne_nil t
  cases hks : getListOfAllowedPartsFromCommitTemplate t with
  | nil => exact absurd hks hne
  | cons k ks =>
    refine ⟨_, rfl, by simp, ?_⟩
    intro j key hj
    cases j with
    | zero =>
      simp at hj
      simp [hj]
    | succ n =>
      simp only [List.getElem?_cons_succ] at hj
      simp [List.getElem?_map, hj]

theorem getFull_col0 (E : Deps) (c : Commit) (m : String → Bool) (d : Bool) (t : String) :
    (getFullDescriptionDisplayStringsForCommit E c m d t)[0]?
      = some (E.Sprint (shaStyle E c m d) (E.ShortSha c.Sha)) := by
  simp [getFullDescriptionDisplayStringsForCommit, shaStyle, statusStyle]

theorem displayLoop_spec
    (f : Commit → (String → Bool) → Bool → String → Option (List String))
    (m : String → Bool) (dn t : String) (commits : List Commit)
    (hf : ∀ c ∈ commits, ∃ row, f c m (c.Sha == dn) t = some row) :
    ∃ rows, displayLoop f m dn t commits = some rows
      ∧ rows.length = commits.length
      ∧ ∀ (i : Nat) (c : Commit), commits[i]? = some c → ∃ row, rows[i]? = some row
          ∧ f c m (c.Sha == dn) t = some row := by
  induction commits with
  | nil => exact ⟨[], rfl, rfl, by simp⟩
  | cons c cs ih =>
    obtain ⟨row, hrow⟩ := hf c (List.mem_cons_self _ _)
    obtain ⟨rows, hrows, hlen, hget⟩ := ih (fun x hx => hf x (List.mem_cons_of_mem _ hx))
    refine ⟨row :: rows, ?_, by simp [hlen], ?_⟩
    · simp [displayLoop, hrow, hrows]
    · intro i x hi
      cases i with
      | zero =>
        simp at hi
        subst hi
        exact ⟨row, by simp, hrow⟩
      | succ n =>
        simp only [List.getElem?_cons_succ] at hi
        obtain ⟨r, hr1, hr2⟩ := hget n x hi
        exact ⟨r, by simpa using hr1, hr2⟩

theorem batch_spec (E : Deps) (commits : List Commit) (full : Bool) (m : String → Bool)
    (dn t : String) :
    ∃ rows, GetCommitListDisplayStrings E commits full m dn t = some rows
      ∧ rows.length = commits.length
      ∧ ∀ (i : Nat) (c : Commit), commits[i]? = some c → ∃ row, rows[i]? = some row
          ∧ (if full then row = getFullDescriptionDisplayStringsForCommit E c m (c.Sha == dn) t
             else getDisplayStringsForCommit E c m (c.Sha == dn) t = some row) := by
  unfold GetCommitListDisplayStrings
  cases full with
  | true =>
    obtain ⟨rows, h1, h2, h3⟩ := displayLoop_spec
      (fun c m d t => some (getFullDescriptionDisplayStringsForCommit E c m d t)) m dn t commits
      (fun c _ => ⟨_, rfl⟩)
    refine ⟨rows, by simpa using h1, h2, ?_⟩
    intro i c hi
    obtain ⟨row, hr1, hr2⟩ := h3 i c hi
    refine ⟨row, hr1, ?_⟩
    simp only [Option.some.injEq] at hr2
    simp [hr2]
  | false =>
    obtain ⟨rows, h1, h2, h3⟩ := displayLoop_spec (getDisplayStringsForCommit E) m dn t commits
      (fun c _ => by
        obtain ⟨row, hrow, _⟩ := getDisplay_row E c m (c.Sha == dn) t
        exact ⟨row, hrow⟩)
    refine ⟨rows, by simpa using h1, h2, ?_⟩
    intro i c hi
    obtain ⟨row, hr1, hr2⟩ := h3 i c hi
    exact ⟨row, hr1, by simpa using hr2⟩

theorem split_join_keys (ks : List String) (hne : ks ≠ [])
    (hks : ∀ k ∈ ks, IsValid k = true) : stringsSplit (stringsJoin ks "|") '|' = ks := by
  unfold stringsSplit stringsJoin
  have hsep : "|".data = ['|'] := rfl
  rw [hsep]
  rw [List.splitOn_intercalate]
  · rw [List.map_map]
    induction ks with
    | nil => rfl
    | cons x xs ih =>
      by_cases hxs : xs = []
      · subst hxs
        rfl
      · rw [List.map_cons, ih hxs (fun k hk => hks k (List.mem_cons_of_mem _ hk))]
        rfl
  · intro l hl
    obtain ⟨k, hk, rfl⟩ := List.mem_map.mp hl
    have hv := (isValid_iff k).mp (hks k hk)
    rcases hv with h | h | h <;> subst h <;> decide
  · simpa using hne

theorem statusStyle_of_gives (E : Deps) (status : String) (style : List Attribute)
    (h : StatusGives E status style) : statusStyle E status = style := by
  unfold StatusGives at h
  rcases h with ⟨h1, h2⟩ | ⟨h1, h2⟩ | ⟨h1, h2⟩ | ⟨h1, h2⟩ | ⟨h1, h2⟩ | ⟨h1, h2⟩
  · subst h1 h2; rfl
  · subst h1 h2; rfl
  · subst h1 h2; rfl
  · subst h1 h2; rfl
  · subst h1 h2; rfl
  · subst h2
    simp only [List.mem_cons, List.mem_singleton, List.not_mem_nil, or_false, not_or] at h1
    obtain ⟨a1, a2, a3, a4, a5⟩ := h1
    simp [statusStyle, a1, a2, a3, a4, a5]

theorem sha_columns (E : Deps) (commits : List Commit) (m : String → Bool)
    (dn t : String) (i : Nat) (c : Commit) (hi : commits[i]? = some c) :
    (∃ rows row, GetCommitListDisplayStrings E commits true m dn t = some rows
      ∧ rows[i]? = some row
      ∧ row[0]? = some (E.Sprint (shaStyle E c m (c.Sha == dn)) (E.ShortSha c.Sha)))
    ∧ (∃ rows row, GetCommitListDisplayStrings E commits false m dn t = some rows
      ∧ rows[i]? = some row
      ∧ ∀ j : Nat, (getListOfAllowedPartsFromCommitTemplate t)[j]? = some ShortShaCommitKey →
          row[j]? = some ((if j = 0 then actionLabel E c else "")
            ++ E.Sprint (shaStyle E c m (c.Sha == dn)) (E.ShortSha c.Sha))) := by
  constructor
  · obtain ⟨rows, h1, _, h3⟩ := batch_spec E commits true m dn t
    obtain ⟨row, hr1, hr2⟩ := h3 i c hi
    simp only [if_true] at hr2
    exact ⟨rows, row, h1, hr1, by rw [hr2]; exact getFull_col0 E c m _ t⟩
  · obtain ⟨rows, h1, _, h3⟩ := batch_spec E commits false m dn t
    obtain ⟨row, hr1, hr2⟩ := h3 i c hi
    simp only [Bool.false_eq_true, if_false] at hr2
    obtain ⟨row2, hrow2, _, hcols⟩ := getDisplay_row E c m (c.Sha == dn) t
    rw [hrow2] at hr2
    have hrr : row2 = row := Option.some.inj hr2
    subst hrr
    refine ⟨rows, row2, h1, hr1, ?_⟩
    intro j hj
    rw [hcols j _ hj]
    simp [templateColumn]

theorem getFull_eq (E : Deps) (c : Commit) (m : String → Bool) (d : Bool) (t : String) :
    getFullDescriptionDisplayStringsForCommit E c m d t
      = [E.Sprint (shaStyle E c m d) (E.ShortSha c.Sha),
          if c.Action ≠ "" then E.Sprint [actionColorMap c.Action] c.Action
          else E.Sprint [FgBlue] (E.UnixToDate c.UnixTimestamp),
          E.Sprint [FgYellow] (E.TruncateWithEllipsis c.Author 17),
          if c.Action = "" ∧ c.ExtraInfo ≠ "" then
            (E.ColoredStringDirect c.ExtraInfo [FgMagenta, Bold] ++ " ")
              ++ E.Sprint [E.DefaultTextColor] c.Name
          else E.Sprint [E.DefaultTextColor] c.Name] := by
  by_cases hA : c.Action = ""
  · by_cases hX : c.ExtraInfo = ""
    · simp [getFullDescriptionDisplayStringsForCommit, shaStyle, statusStyle, hA, hX]
    · simp [getFullDescriptionDisplayStringsForCommit, shaStyle, statusStyle, hA, hX]
  · simp [getFullDescriptionDisplayStringsForCommit, shaStyle, statusStyle, hA]

/-! ## Claims -/

/-- C1: `GetCommitListDisplayStrings` returns, for every commit list, layout
flag, cherry-pick map, diff target and template, a list of rows with as many
rows as there are commits, and the empty list of rows for no commits. -/
theorem C1_one_row_per_commit (E : Deps) (commits : List Commit) (fullDescription : Bool)
    (cherryPicked : String → Bool) (diffName commitTemplate : String) :
    (∃ rows, GetCommitListDisplayStrings E commits fullDescription cherryPicked diffName
        commitTemplate = some rows ∧ rows.length = commits.length)
    ∧ GetCommitListDisplayStrings E [] fullDescription cherryPicked diffName commitTemplate
        = some [] := by
  constructor
  · obtain ⟨rows, h1, h2, _⟩ :=
      batch_spec E commits fullDescription cherryPicked diffName commitTemplate
    exact ⟨rows, h1, h2⟩
  · cases fullDescription <;> rfl

/-- C2: row `i` of `GetCommitListDisplayStrings` is the row of commit `i`
alone, with `diffed` set to whether its identifier is the diff target and the
same cherry-pick map and template: the full-description row when the flag is
true, the template row when it is false. -/
theorem C2_row_of_each_commit (E : Deps) (commits : List Commit) (fullDescription : Bool)
    (cherryPicked : String → Bool) (diffName commitTemplate : String) (i : Nat) (c : Commit)
    (hi : commits[i]? = some c) :
    ∃ rows row, GetCommitListDisplayStrings E commits fullDescription cherryPicked diffName
        commitTemplate = some rows
      ∧ rows[i]? = some row
      ∧ (if fullDescription then
          row = getFullDescriptionDisplayStringsForCommit E c cherryPicked (c.Sha == diffName)
            commitTemplate
        else
          getDisplayStringsForCommit E c cherryPicked (c.Sha == diffName) commitTemplate
            = some row) := by
  obtain ⟨rows, h1, _, h3⟩ :=
    batch_spec E commits fullDescription cherryPicked diffName commitTemplate
  obtain ⟨row, hr1, hr2⟩ := h3 i c hi
  exact ⟨rows, row, h1, hr1, hr2⟩

/-- Witness of C2: the second of two commits, template layout. -/
theorem C2_row_of_each_commit_witness :
    [sampleCommit "aa" "pushed", sampleCommit "bb" "merged"][1]? = some (sampleCommit "bb" "merged")
    ∧ ∃ rows row, GetCommitListDisplayStrings stdDeps
        [sampleCommit "aa" "pushed", sampleCommit "bb" "merged"] false noCherryPicks "bb"
        "author" = some rows
      ∧ rows[1]? = some row
      ∧ (if false = true then
          row = getFullDescriptionDisplayStringsForCommit stdDeps (sampleCommit "bb" "merged")
            noCherryPicks ((sampleCommit "bb" "merged").Sha == "bb") "author"
        else
          getDisplayStringsForCommit stdDeps (sampleCommit "bb" "merged") noCherryPicks
            ((sampleCommit "bb" "merged").Sha == "bb") "author" = some row) :=
  ⟨rfl, C2_row_of_each_commit stdDeps [sampleCommit "aa" "pushed", sampleCommit "bb" "merged"]
    false noCherryPicks "bb" "author" 1 (sampleCommit "bb" "merged") rfl⟩

/-- C3: when some piece of the template between `|` is a recognized key,
`getListOfAllowedPartsFromCommitTemplate` returns the pieces that are one of
`short-sha`, `message`, `author`, in the order of the template, repetitions
kept, the other pieces dropped; `short-sha|author|bogus|message` gives
`[short-sha, author, message]` and `author|short-sha` gives
`[author, short-sha]`. -/
theorem C3_recognized_keys_in_order (s : String) :
    ((∃ tok ∈ stringsSplit s '|', tok = "short-sha" ∨ tok = "message" ∨ tok = "author") →
      getListOfAllowedPartsFromCommitTemplate s
        = (stringsSplit s '|').filter
            (fun tok => decide (tok = "short-sha" ∨ tok = "message" ∨ tok = "author")))
    ∧ getListOfAllowedPartsFromCommitTemplate "short-sha|author|bogus|message"
        = [ShortShaCommitKey, AuthorCommitKey, MessageCommitKey]
    ∧ getListOfAllowedPartsFromCommitTemplate "author|short-sha"
        = [AuthorCommitKey, ShortShaCommitKey] := by
  refine ⟨?_, by decide, by decide⟩
  intro h
  have hfun : (fun tok : String => decide (tok = "short-sha" ∨ tok = "message" ∨ tok = "author"))
      = IsValid := by
    funext tok
    by_cases hv : IsValid tok = true
    · rw [hv]
      exact decide_eq_true ((isValid_iff tok).mp hv)
    · have hv2 : IsValid tok = false := by simpa using hv
      rw [hv2]
      exact decide_eq_false (fun hc => hv ((isValid_iff tok).mpr hc))
  rw [hfun, getList_eq]
  obtain ⟨tok, hmem, hval⟩ := h
  have hin : tok ∈ (stringsSplit s '|').filter IsValid :=
    List.mem_filter.mpr ⟨hmem, (isValid_iff tok).mpr hval⟩
  rw [if_neg (List.ne_nil_of_mem hin)]

/-- Witness of C3: a template with a repeated key and unknown pieces. -/
theorem C3_recognized_keys_in_order_witness :
    (∃ tok ∈ stringsSplit "author|x||author|message" '|',
        tok = "short-sha" ∨ tok = "message" ∨ tok = "author")
    ∧ getListOfAllowedPartsFromCommitTemplate "author|x||author|message"
        = ["author", "author", "message"] :=
  ⟨⟨"author", by decide, Or.inr (Or.inr rfl)⟩,
    ((C3_recognized_keys_in_order "author|x||author|message").1
      ⟨"author", by decide, Or.inr (Or.inr rfl)⟩).trans (by decide)⟩

/-- C4: when no piece of the template between `|` is a recognized key,
`getListOfAllowedPartsFromCommitTemplate` returns `[short-sha, message]`, as
it does for the empty string, `bogus` and `bogus|also-bogus`; so the parsed
template is never empty. -/
theorem C4_default_template (s : String) :
    ((∀ tok ∈ stringsSplit s '|', ¬ (tok = "short-sha" ∨ tok = "message" ∨ tok = "author")) →
      getListOfAllowedPartsFromCommitTemplate s = [ShortShaCommitKey, MessageCommitKey])
    ∧ getListOfAllowedPartsFromCommitTemplate s ≠ []
    ∧ getListOfAllowedPartsFromCommitTemplate "" = [ShortShaCommitKey, MessageCommitKey]
    ∧ getListOfAllowedPartsFromCommitTemplate "bogus" = [ShortShaCommitKey, MessageCommitKey]
    ∧ getListOfAllowedPartsFromCommitTemplate "bogus|also-bogus"
        = [ShortShaCommitKey, MessageCommitKey] := by
  refine ⟨?_, getList_ne_nil s, by decide, by decide, by decide⟩
  intro h
  rw [getList_eq]
  have hnil : (stringsSplit s '|').filter IsValid = [] := by
    rw [List.filter_eq_nil_iff]
    intro tok hmem hv
    exact h tok hmem ((isValid_iff tok).mp hv)
  rw [if_pos hnil]

/-- Witness of C4: a template whose pieces are all unknown. -/
theorem C4_default_template_witness :
    (∀ tok ∈ stringsSplit "sha|Author" '|',
        ¬ (tok = "short-sha" ∨ tok = "message" ∨ tok = "author"))
    ∧ getListOfAllowedPartsFromCommitTemplate "sha|Author" = ["short-sha", "message"] :=
  ⟨by decide, (C4_default_template "sha|Author").1 (by decide)⟩

/-- C5: template parsing is idempotent: joining the keys that
`getListOfAllowedPartsFromCommitTemplate` returns with `|` and parsing the
result gives the same keys. -/
theorem C5_parse_idempotent (s : String) :
    getListOfAllowedPartsFromCommitTemplate
        (stringsJoin (getListOfAllowedPartsFromCommitTemplate s) "|")
      = getListOfAllowedPartsFromCommitTemplate s := by
  have hne := getList_ne_nil s
  have hv := getList_valid s
  rw [getList_eq (stringsJoin (getListOfAllowedPartsFromCommitTemplate s) "|"),
    split_join_keys _ hne hv]
  have hfilter : (getListOfAllowedPartsFromCommitTemplate s).filter IsValid
      = getListOfAllowedPartsFromCommitTemplate s :=
    List.filter_eq_self.mpr hv
  rw [hfilter, if_neg hne]

/-- C6: a commit whose identifier is the diff target has its short
identifier rendered in the diffed style, in the first column of the
full-description row and in every `short-sha` column of the template row,
whatever its status and whether or not the cherry-pick map holds it. -/
theorem C6_diffed_style (E : Deps) (commits : List Commit) (cherryPicked : String → Bool)
    (diffName commitTemplate : String) (i : Nat) (c : Commit)
    (hi : commits[i]? = some c) (hd : c.Sha = diffName) :
    (∃ rows row, GetCommitListDisplayStrings E commits true cherryPicked diffName
        commitTemplate = some rows
      ∧ rows[i]? = some row
      ∧ row[0]? = some (E.Sprint [E.DiffTerminalColor] (E.ShortSha c.Sha)))
    ∧ (∃ rows row, GetCommitListDisplayStrings E commits false cherryPicked diffName
        commitTemplate = some rows
      ∧ rows[i]? = some row
      ∧ ∀ j : Nat, (getListOfAllowedPartsFromCommitTemplate commitTemplate)[j]?
            = some ShortShaCommitKey →
          row[j]? = some ((if j = 0 then actionLabel E c else "")
            ++ E.Sprint [E.DiffTerminalColor] (E.ShortSha c.Sha))) := by
  have h := sha_columns E commits cherryPicked diffName commitTemplate i c hi
  have hs : shaStyle E c cherryPicked (c.Sha == diffName) = [E.DiffTerminalColor] := by
    simp [shaStyle, hd]
  rw [hs] at h
  exact h

/-- Witness of C6: the diffed commit is also cherry-picked and pushed. -/
theorem C6_diffed_style_witness :
    [sampleCommit "aa" "pushed"][0]? = some (sampleCommit "aa" "pushed")
    ∧ (sampleCommit "aa" "pushed").Sha = "aa"
    ∧ (∃ rows row, GetCommitListDisplayStrings stdDeps [sampleCommit "aa" "pushed"] true
        (fun _ => true) "aa" "message|short-sha" = some rows
      ∧ rows[0]? = some row
      ∧ row[0]? = some (stdDeps.Sprint [stdDeps.DiffTerminalColor]
          (stdDeps.ShortSha (sampleCommit "aa" "pushed").Sha)))
    ∧ (∃ rows row, GetCommitListDisplayStrings stdDeps [sampleCommit "aa" "pushed"] false
        (fun _ => true) "aa" "message|short-sha" = some rows
      ∧ rows[0]? = some row
      ∧ ∀ j : Nat, (getListOfAllowedPartsFromCommitTemplate "message|short-sha")[j]?
            = some ShortShaCommitKey →
          row[j]? = some ((if j = 0 then actionLabel stdDeps (sampleCommit "aa" "pushed") else "")
            ++ stdDeps.Sprint [stdDeps.DiffTerminalColor]
              (stdDeps.ShortSha (sampleCommit "aa" "pushed").Sha))) :=
  ⟨rfl, rfl, C6_diffed_style stdDeps [sampleCommit "aa" "pushed"] (fun _ => true) "aa"
    "message|short-sha" 0 (sampleCommit "aa" "pushed") rfl rfl⟩

/-- C7: a commit that the cherry-pick map holds and whose identifier is not
the diff target has its short identifier rendered in the copied style, cyan on
a blue background, in the first column of the full-description row and in
every `short-sha` column of the template row, whatever its status. -/
theorem C7_copied_style (E : Deps) (commits : List Commit) (cherryPicked : String → Bool)
    (diffName commitTemplate : String) (i : Nat) (c : Commit)
    (hi : commits[i]? = some c) (hc : cherryPicked c.Sha = true) (hd : c.Sha ≠ diffName) :
    (∃ rows row, GetCommitListDisplayStrings E commits true cherryPicked diffName
        commitTemplate = some rows
      ∧ rows[i]? = some row
      ∧ row[0]? = some (E.Sprint [FgCyan, BgBlue] (E.ShortSha c.Sha)))
    ∧ (∃ rows row, GetCommitListDisplayStrings E commits false cherryPicked diffName
        commitTemplate = some rows
      ∧ rows[i]? = some row
      ∧ ∀ j : Nat, (getListOfAllowedPartsFromCommitTemplate commitTemplate)[j]?
            = some ShortShaCommitKey →
          row[j]? = some ((if j = 0 then actionLabel E c else "")
            ++ E.Sprint [FgCyan, BgBlue] (E.ShortSha c.Sha))) := by
  have h := sha_columns E commits cherryPicked diffName commitTemplate i c hi
  have hs : shaStyle E c cherryPicked (c.Sha == diffName) = [FgCyan, BgBlue] := by
    simp [shaStyle, hd, hc]
  rw [hs] at h
  exact h

/-- Witness of C7: a cherry-picked, merged commit next to the diffed one. -/
theorem C7_copied_style_witness :
    [sampleCommit "aa" "pushed", sampleCommit "bb" "merged"][1]?
      = some (sampleCommit "bb" "merged")
    ∧ (fun s : String => s == "bb") (sampleCommit "bb" "merged").Sha = true
    ∧ (sampleCommit "bb" "merged").Sha ≠ "aa"
    ∧ (∃ rows row, GetCommitListDisplayStrings stdDeps
        [sampleCommit "aa" "pushed", sampleCommit "bb" "merged"] true
        (fun s : String => s == "bb") "aa" "short-sha" = some rows
      ∧ rows[1]? = some row
      ∧ row[0]? = some (stdDeps.Sprint [FgCyan, BgBlue]
          (stdDeps.ShortSha (sampleCommit "bb" "merged").Sha)))
    ∧ (∃ rows row, GetCommitListDisplayStrings stdDeps
        [sampleCommit "aa" "pushed", sampleCommit "bb" "merged"] false
        (fun s : String => s == "bb") "aa" "short-sha" = some rows
      ∧ rows[1]? = some row
      ∧ ∀ j : Nat, (getListOfAllowedPartsFromCommitTemplate "short-sha")[j]?
            = some ShortShaCommitKey →
          row[j]? = some ((if j = 0 then actionLabel stdDeps (sampleCommit "bb" "merged") else "")
            ++ stdDeps.Sprint [FgCyan, BgBlue]
              (stdDeps.ShortSha (sampleCommit "bb" "merged").Sha))) :=
  ⟨rfl, by decide, by decide,
    C7_copied_style stdDeps [sampleCommit "aa" "pushed", sampleCommit "bb" "merged"]
      (fun s : String => s == "bb") "aa" "short-sha" 1 (sampleCommit "bb" "merged") rfl
      (by decide) (by decide)⟩

/-- C8: a commit that is neither the diff target nor in the cherry-pick map
has its short identifier rendered in the style of its status alone, in the
first column of the full-description row and in every `short-sha` column of
the template row: red for `unpushed`, yellow for `pushed`, green for `merged`,
blue for `rebasing` and `reflog`, the default text style for any other
status. -/
theorem C8_status_style (E : Deps) (commits : List Commit) (cherryPicked : String → Bool)
    (diffName commitTemplate : String) (i : Nat) (c : Commit) (style : List Attribute)
    (hi : commits[i]? = some c) (hd : c.Sha ≠ diffName) (hc : cherryPicked c.Sha = false)
    (hs : StatusGives E c.Status style) :
    (∃ rows row, GetCommitListDisplayStrings E commits true cherryPicked diffName
        commitTemplate = some rows
      ∧ rows[i]? = some row
      ∧ row[0]? = some (E.Sprint style (E.ShortSha c.Sha)))
    ∧ (∃ rows row, GetCommitListDisplayStrings E commits false cherryPicked diffName
        commitTemplate = some rows
      ∧ rows[i]? = some row
      ∧ ∀ j : Nat, (getListOfAllowedPartsFromCommitTemplate commitTemplate)[j]?
            = some ShortShaCommitKey →
          row[j]? = some ((if j = 0 then actionLabel E c else "")
            ++ E.Sprint style (E.ShortSha c.Sha))) := by
  have h := sha_columns E commits cherryPicked diffName commitTemplate i c hi
  have hst : shaStyle E c cherryPicked (c.Sha == diffName) = style := by
    simp [shaStyle, hd, hc, statusStyle_of_gives E c.Status style hs]
  rw [hst] at h
  exact h

/-- Witness of C8: a commit with the empty status gets the default text
style. -/
theorem C8_status_style_witness :
    [sampleCommit "aa" ""][0]? = some (sampleCommit "aa" "")
    ∧ (sampleCommit "aa" "").Sha ≠ "bb"
    ∧ noCherryPicks (sampleCommit "aa" "").Sha = false
    ∧ StatusGives stdDeps (sampleCommit "aa" "").Status [FgWhite]
    ∧ (∃ rows row, GetCommitListDisplayStrings stdDeps [sampleCommit "aa" ""] true
        noCherryPicks "bb" "short-sha|author" = some rows
      ∧ rows[0]? = some row
      ∧ row[0]? = some (stdDeps.Sprint [FgWhite] (stdDeps.ShortSha (sampleCommit "aa" "").Sha)))
    ∧ (∃ rows row, GetCommitListDisplayStrings stdDeps [sampleCommit "aa" ""] false
        noCherryPicks "bb" "short-sha|author" = some rows
      ∧ rows[0]? = some row
      ∧ ∀ j : Nat, (getListOfAllowedPartsFromCommitTemplate "short-sha|author")[j]?
            = some ShortShaCommitKey →
          row[j]? = some ((if j = 0 then actionLabel stdDeps (sampleCommit "aa" "") else "")
            ++ stdDeps.Sprint [FgWhite] (stdDeps.ShortSha (sampleCommit "aa" "").Sha))) :=
  have hs : StatusGives stdDeps (sampleCommit "aa" "").Status [FgWhite] :=
    Or.inr (Or.inr (Or.inr (Or.inr (Or.inr ⟨by decide, rfl⟩))))
  ⟨rfl, by decide, rfl, hs,
    C8_status_style stdDeps [sampleCommit "aa" ""] noCherryPicks "bb" "short-sha|author" 0
      (sampleCommit "aa" "") [FgWhite] rfl (by decide) rfl hs⟩

/-- C9, as the code has it: a commit with the empty identifier is matched by
plain equality, so for a diff target that is not empty and a cherry-pick map
that does not hold the empty identifier it is neither diffed nor
cherry-picked, and its short identifier is rendered in the style of its status
alone in both layouts. -/
theorem C9_empty_identifier_status_style (E : Deps) (commits : List Commit)
    (cherryPicked : String → Bool) (diffName commitTemplate : String) (i : Nat) (c : Commit)
    (style : List Attribute)
    (hi : commits[i]? = some c) (hsha : c.Sha = "") (hd : diffName ≠ "")
    (hc : cherryPicked "" = false) (hs : StatusGives E c.Status style) :
    (∃ rows row, GetCommitListDisplayStrings E commits true cherryPicked diffName
        commitTemplate = some rows
      ∧ rows[i]? = some row
      ∧ row[0]? = some (E.Sprint style (E.ShortSha c.Sha)))
    ∧ (∃ rows row, GetCommitListDisplayStrings E commits false cherryPicked diffName
        commitTemplate = some rows
      ∧ rows[i]? = some row
      ∧ ∀ j : Nat, (getListOfAllowedPartsFromCommitTemplate commitTemplate)[j]?
            = some ShortShaCommitKey →
          row[j]? = some ((if j = 0 then actionLabel E c else "")
            ++ E.Sprint style (E.ShortSha c.Sha))) := by
  have h := sha_columns E commits cherryPicked diffName commitTemplate i c hi
  have hne : ¬ ("" = diffName) := fun e => hd e.symm
  have hst : shaStyle E c cherryPicked (c.Sha == diffName) = style := by
    simp [shaStyle, hsha, hne, hc, statusStyle_of_gives E c.Status style hs]
  rw [hst] at h
  exact h

/-- Witness of C9: a pushed commit with the empty identifier, a diff target
that is not empty and the empty cherry-pick map. -/
theorem C9_empty_identifier_status_style_witness :
    [sampleCommit "" "pushed"][0]? = some (sampleCommit "" "pushed")
    ∧ (sampleCommit "" "pushed").Sha = ""
    ∧ "aa" ≠ ""
    ∧ noCherryPicks "" = false
    ∧ StatusGives stdDeps (sampleCommit "" "pushed").Status [FgYellow]
    ∧ (∃ rows row, GetCommitListDisplayStrings stdDeps [sampleCommit "" "pushed"] true
        noCherryPicks "aa" "short-sha" = some rows
      ∧ rows[0]? = some row
      ∧ row[0]? = some (stdDeps.Sprint [FgYellow]
          (stdDeps.ShortSha (sampleCommit "" "pushed").Sha)))
    ∧ (∃ rows row, GetCommitListDisplayStrings stdDeps [sampleCommit "" "pushed"] false
        noCherryPicks "aa" "short-sha" = some rows
      ∧ rows[0]? = some row
      ∧ ∀ j : Nat, (getListOfAllowedPartsFromCommitTemplate "short-sha")[j]?
            = some ShortShaCommitKey →
          row[j]? = some ((if j = 0 then actionLabel stdDeps (sampleCommit "" "pushed") else "")
            ++ stdDeps.Sprint [FgYellow] (stdDeps.ShortSha (sampleCommit "" "pushed").Sha))) :=
  have hs : StatusGives stdDeps (sampleCommit "" "pushed").Status [FgYellow] :=
    Or.inr (Or.inl ⟨rfl, rfl⟩)
  ⟨rfl, rfl, by decide, rfl, hs,
    C9_empty_identifier_status_style stdDeps [sampleCommit "" "pushed"] noCherryPicks "aa"
      "short-sha" 0 (sampleCommit "" "pushed") [FgYellow] rfl rfl (by decide) rfl hs⟩

/-- Counterexample to C9 as stated: with the empty diff target, a pushed
commit with the empty identifier is diffed, and with a cherry-pick map that
holds the empty identifier it is copied; in neither case is its short
identifier in the yellow of its status. -/
theorem C9_empty_identifier_counterexample :
    (sampleCommit "" "pushed").Sha = ""
    ∧ StatusGives stdDeps (sampleCommit "" "pushed").Status [FgYellow]
    ∧ GetCommitListDisplayStrings stdDeps [sampleCommit "" "pushed"] true noCherryPicks ""
        "short-sha"
      = some [[stdDeps.Sprint [stdDeps.DiffTerminalColor] (stdDeps.ShortSha ""),
          stdDeps.Sprint [FgBlue] (stdDeps.UnixToDate 0),
          stdDeps.Sprint [FgYellow] "ann", stdDeps.Sprint [FgWhite] "fix"]]
    ∧ GetCommitListDisplayStrings stdDeps [sampleCommit "" "pushed"] false noCherryPicks ""
        "short-sha"
      = some [[stdDeps.Sprint [stdDeps.DiffTerminalColor] (stdDeps.ShortSha "")]]
    ∧ GetCommitListDisplayStrings stdDeps [sampleCommit "" "pushed"] true
        (fun s : String => s == "") "aa" "short-sha"
      = some [[stdDeps.Sprint [FgCyan, BgBlue] (stdDeps.ShortSha ""),
          stdDeps.Sprint [FgBlue] (stdDeps.UnixToDate 0),
          stdDeps.Sprint [FgYellow] "ann", stdDeps.Sprint [FgWhite] "fix"]]
    ∧ stdDeps.Sprint [stdDeps.DiffTerminalColor] (stdDeps.ShortSha "")
        ≠ stdDeps.Sprint [FgYellow] (stdDeps.ShortSha "")
    ∧ stdDeps.Sprint [FgCyan, BgBlue] (stdDeps.ShortSha "")
        ≠ stdDeps.Sprint [FgYellow] (stdDeps.ShortSha "") :=
  ⟨rfl, Or.inr (Or.inl ⟨rfl, rfl⟩), by decide, by decide, by decide, by decide, by decide⟩

/-- C10: `actionColorMap` gives cyan for `pick`, red for `drop`, green for
`edit`, magenta for `fixup` and yellow for every other action; and the style
of the short identifier does not depend on the action: one style serves for
every action put in the place of the commit's own, in the first column of the
full-description row and in every `short-sha` column of the template row. -/
theorem C10_action_colours (E : Deps) (c : Commit) (cherryPicked : String → Bool)
    (diffed : Bool) (commitTemplate : String) :
    (actionColorMap "pick" = FgCyan ∧ actionColorMap "drop" = FgRed
      ∧ actionColorMap "edit" = FgGreen ∧ actionColorMap "fixup" = FgMagenta
      ∧ ∀ a : String, a ∉ ["pick", "drop", "edit", "fixup"] → actionColorMap a = FgYellow)
    ∧ ∃ style : List Attribute, ∀ a : String,
        (getFullDescriptionDisplayStringsForCommit E { c with Action := a } cherryPicked diffed
            commitTemplate)[0]? = some (E.Sprint style (E.ShortSha c.Sha))
        ∧ ∃ row, getDisplayStringsForCommit E { c with Action := a } cherryPicked diffed
              commitTemplate = some row
          ∧ ∀ j : Nat, (getListOfAllowedPartsFromCommitTemplate commitTemplate)[j]?
                = some ShortShaCommitKey →
              row[j]? = some ((if j = 0 then actionLabel E { c with Action := a } else "")
                ++ E.Sprint style (E.ShortSha c.Sha)) := by
  refine ⟨⟨rfl, rfl, rfl, rfl, ?_⟩, shaStyle E c cherryPicked diffed, ?_⟩
  · intro a ha
    simp only [List.mem_cons, List.mem_singleton, List.not_mem_nil, or_false, not_or] at ha
    obtain ⟨a1, a2, a3, a4⟩ := ha
    simp [actionColorMap, a1, a2, a3, a4]
  · intro a
    have hsame : shaStyle E { c with Action := a } cherryPicked diffed
        = shaStyle E c cherryPicked diffed := rfl
    constructor
    · rw [getFull_col0, hsame]
    · obtain ⟨row, hrow, _, hcols⟩ :=
        getDisplay_row E { c with Action := a } cherryPicked diffed commitTemplate
      refine ⟨row, hrow, ?_⟩
      intro j hj
      rw [hcols j _ hj]
      simp [templateColumn, hsame]

/-- C11: in the template layout, for a commit whose action is not empty,
column 0 is the action label (the action padded to 7, in the colour of
`actionColorMap`, and one space) in front of what the first key renders to,
whichever key it is, and every other column is what its key renders to, with
no label; with the action `pick` and the template `short-sha|message` the
visible text of column 0 is `pick` padded to 7, a space and the short
identifier. -/
theorem C11_action_label_in_first_column (E : Deps) (c : Commit)
    (cherryPicked : String → Bool) (diffed : Bool) (commitTemplate : String) :
    (c.Action ≠ "" →
      ∃ row, getDisplayStringsForCommit E c cherryPicked diffed commitTemplate = some row
        ∧ ∀ (j : Nat) (key : CommitTemplateKey),
            (getListOfAllowedPartsFromCommitTemplate commitTemplate)[j]? = some key →
            row[j]? = some
              (if j = 0 then
                (E.Sprint [actionColorMap c.Action] (E.WithPadding c.Action 7) ++ " ")
                  ++ templateColumn E c cherryPicked diffed key
              else templateColumn E c cherryPicked diffed key))
    ∧ getDisplayStringsForCommit plainDeps { c with Action := "pick" } cherryPicked diffed
        "short-sha|message"
      = some ["pick   " ++ " " ++ ShortSha c.Sha, c.Name]
    ∧ getDisplayStringsForCommit E { c with Action := "pick" } cherryPicked diffed
        "short-sha|message"
      = some [(E.Sprint [FgCyan] (E.WithPadding "pick" 7) ++ " ")
          ++ E.Sprint (shaStyle E c cherryPicked diffed) (E.ShortSha c.Sha),
          E.Sprint [E.DefaultTextColor] c.Name] := by
  have hkeys : getListOfAllowedPartsFromCommitTemplate "short-sha|message"
      = [ShortShaCommitKey, MessageCommitKey] := by decide
  have hpad : WithPadding "pick" 7 = "pick   " := by decide
  have hmsg : MessageCommitKey ≠ ShortShaCommitKey := by decide
  have hcyan : actionColorMap "pick" = FgCyan := rfl
  refine ⟨?_, ?_, ?_⟩
  · intro ha
    obtain ⟨row, hrow, _, hcols⟩ := getDisplay_row E c cherryPicked diffed commitTemplate
    refine ⟨row, hrow, ?_⟩
    intro j key hj
    rw [hcols j key hj]
    by_cases h0 : j = 0
    · simp [h0, actionLabel, ha]
    · simp [h0]
  · rw [getDisplay_eq, hkeys]
    simp [actionLabel, templateColumn, tagLabel, plainDeps, hpad, hmsg, hcyan, shaStyle,
      String.append_assoc]
  · rw [getDisplay_eq, hkeys]
    simp [actionLabel, templateColumn, tagLabel, hmsg, hcyan, shaStyle]

/-- Witness of C11: the action `drop` with the author first in the template. -/
theorem C11_action_label_in_first_column_witness :
    ({ sampleCommit "aa" "pushed" with Action := "drop" } : Commit).Action ≠ ""
    ∧ getDisplayStringsForCommit plainDeps { sampleCommit "aa" "pushed" with Action := "drop" }
        noCherryPicks false "author|short-sha"
      = some ["drop   " ++ " " ++ "ann", "aa"]
    ∧ ∃ row, getDisplayStringsForCommit plainDeps
          { sampleCommit "aa" "pushed" with Action := "drop" } noCherryPicks false
          "author|short-sha" = some row
        ∧ ∀ (j : Nat) (key : CommitTemplateKey),
            (getListOfAllowedPartsFromCommitTemplate "author|short-sha")[j]? = some key →
            row[j]? = some
              (if j = 0 then
                (plainDeps.Sprint [actionColorMap "drop"] (plainDeps.WithPadding "drop" 7) ++ " ")
                  ++ templateColumn plainDeps { sampleCommit "aa" "pushed" with Action := "drop" }
                    noCherryPicks false key
              else templateColumn plainDeps { sampleCommit "aa" "pushed" with Action := "drop" }
                noCherryPicks false key) :=
  ⟨by decide, by decide,
    (C11_action_label_in_first_column plainDeps { sampleCommit "aa" "pushed" with Action := "drop" }
      noCherryPicks false "author|short-sha").1 (by decide)⟩

/-- C12: in the template layout, for a commit with an empty action and at
least one tag, every message column is the tags joined by one space, in bold
magenta, then one space, then the subject in the default text style; with the
tags `v1.0` and `release` and the template `message` the row is one column
whose visible text is `v1.0 release ` and the subject. -/
theorem C12_tags_before_subject (E : Deps) (c : Commit) (cherryPicked : String → Bool)
    (diffed : Bool) (commitTemplate : String) :
    (c.Action = "" → c.Tags ≠ [] →
      ∃ row, getDisplayStringsForCommit E c cherryPicked diffed commitTemplate = some row
        ∧ ∀ j : Nat, (getListOfAllowedPartsFromCommitTemplate commitTemplate)[j]?
              = some MessageCommitKey →
            row[j]? = some
              ((E.ColoredStringDirect (stringsJoin c.Tags " ") [FgMagenta, Bold] ++ " ")
                ++ E.Sprint [E.DefaultTextColor] c.Name))
    ∧ getDisplayStringsForCommit plainDeps { c with Action := "", Tags := ["v1.0", "release"] }
        cherryPicked diffed "message"
      = some ["v1.0 release " ++ c.Name]
    ∧ getDisplayStringsForCommit E { c with Action := "", Tags := ["v1.0", "release"] }
        cherryPicked diffed "message"
      = some [(E.ColoredStringDirect "v1.0 release" [FgMagenta, Bold] ++ " ")
          ++ E.Sprint [E.DefaultTextColor] c.Name] := by
  have hkeys : getListOfAllowedPartsFromCommitTemplate "message" = [MessageCommitKey] := by
    decide
  have hjoin : stringsJoin ["v1.0", "release"] " " = "v1.0 release" := by decide
  have hsp : "v1.0 release" ++ " " = "v1.0 release " := by decide
  have hmsg : MessageCommitKey ≠ ShortShaCommitKey := by decide
  refine ⟨?_, ?_, ?_⟩
  · intro ha ht
    obtain ⟨row, hrow, _, hcols⟩ := getDisplay_row E c cherryPicked diffed commitTemplate
    refine ⟨row, hrow, ?_⟩
    intro j hj
    rw [hcols j _ hj]
    simp [actionLabel, templateColumn, tagLabel, ha, ht, hmsg]
  · rw [getDisplay_eq, hkeys]
    simp [actionLabel, templateColumn, tagLabel, plainDeps, hmsg, hjoin, hsp]
  · rw [getDisplay_eq, hkeys]
    simp [actionLabel, templateColumn, tagLabel, hmsg, hjoin]

/-- Witness of C12: one tag, the message in the second column. -/
theorem C12_tags_before_subject_witness :
    ({ sampleCommit "aa" "pushed" with Tags := ["v2"] } : Commit).Action = ""
    ∧ ({ sampleCommit "aa" "pushed" with Tags := ["v2"] } : Commit).Tags ≠ []
    ∧ getDisplayStringsForCommit plainDeps { sampleCommit "aa" "pushed" with Tags := ["v2"] }
        noCherryPicks false "short-sha|message" = some ["aa", "v2 fix"]
    ∧ ∃ row, getDisplayStringsForCommit plainDeps
          { sampleCommit "aa" "pushed" with Tags := ["v2"] } noCherryPicks false
          "short-sha|message" = some row
        ∧ ∀ j : Nat, (getListOfAllowedPartsFromCommitTemplate "short-sha|message")[j]?
              = some MessageCommitKey →
            row[j]? = some
              ((plainDeps.ColoredStringDirect (stringsJoin ["v2"] " ") [FgMagenta, Bold] ++ " ")
                ++ plainDeps.Sprint [plainDeps.DefaultTextColor] "fix") :=
  ⟨rfl, by decide, by decide,
    (C12_tags_before_subject plainDeps { sampleCommit "aa" "pushed" with Tags := ["v2"] }
      noCherryPicks false "short-sha|message").1 rfl (by decide)⟩

/-- C13, as the code has it: the template row has as many columns as
`getListOfAllowedPartsFromCommitTemplate` returns keys, and column `j` is what
key `j` renders to, after the action label in column 0 when the action is not
empty. -/
theorem C13_one_column_per_key (E : Deps) (c : Commit) (cherryPicked : String → Bool)
    (diffed : Bool) (commitTemplate : String) :
    ∃ row, getDisplayStringsForCommit E c cherryPicked diffed commitTemplate = some row
      ∧ row.length = (getListOfAllowedPartsFromCommitTemplate commitTemplate).length
      ∧ ∀ (j : Nat) (key : CommitTemplateKey),
          (getListOfAllowedPartsFromCommitTemplate commitTemplate)[j]? = some key →
          row[j]? = some
            (if j = 0 ∧ c.Action ≠ "" then
              (E.Sprint [actionColorMap c.Action] (E.WithPadding c.Action 7) ++ " ")
                ++ templateColumn E c cherryPicked diffed key
            else templateColumn E c cherryPicked diffed key) := by
  obtain ⟨row, hrow, hlen, hcols⟩ := getDisplay_row E c cherryPicked diffed commitTemplate
  refine ⟨row, hrow, hlen, ?_⟩
  intro j key hj
  rw [hcols j key hj]
  by_cases h0 : j = 0
  · by_cases ha : c.Action = ""
    · simp [h0, actionLabel, ha]
    · simp [h0, actionLabel, ha]
  · simp [h0]

/-- Counterexample to C13 as stated: with the action `pick` and the template
`short-sha`, the one key renders to the short identifier in yellow, and the
one column of the row is the action label followed by that, not the rendering
of the key alone. -/
theorem C13_one_column_per_key_counterexample :
    getListOfAllowedPartsFromCommitTemplate "short-sha" = [ShortShaCommitKey]
    ∧ templateColumn stdDeps { sampleCommit "aa" "pushed" with Action := "pick" } noCherryPicks
        false ShortShaCommitKey = "\x1b[33maa\x1b[0m"
    ∧ getDisplayStringsForCommit stdDeps { sampleCommit "aa" "pushed" with Action := "pick" }
        noCherryPicks false "short-sha" = some ["\x1b[36mpick   \x1b[0m \x1b[33maa\x1b[0m"]
    ∧ getDisplayStringsForCommit stdDeps { sampleCommit "aa" "pushed" with Action := "pick" }
        noCherryPicks false "short-sha"
      ≠ some [templateColumn stdDeps { sampleCommit "aa" "pushed" with Action := "pick" }
          noCherryPicks false ShortShaCommitKey] := by
  decide

/-- C14: the full-description row has exactly 4 columns, for every commit,
cherry-pick map, diffed flag and template. -/
theorem C14_full_description_four_columns (E : Deps) (c : Commit)
    (cherryPicked : String → Bool) (diffed : Bool) (commitTemplate : String) :
    (getFullDescriptionDisplayStringsForCommit E c cherryPicked diffed commitTemplate).length
      = 4 := by
  rw [getFull_eq]
  rfl

/-- C15: in both layouts the author name is printed truncated to 17 and in
yellow: it is the third column of the full-description row and, after the
action label in column 0, every `author` column of the template row; the
truncation keeps a name of at most 17 characters as it is and turns a name of
20 characters into 17 characters, the first 16 and one ellipsis. -/
theorem C15_author_truncated_yellow (E : Deps) (c : Commit) (cherryPicked : String → Bool)
    (diffed : Bool) (commitTemplate : String) :
    (getFullDescriptionDisplayStringsForCommit E c cherryPicked diffed commitTemplate)[2]?
      = some (E.Sprint [FgYellow] (E.TruncateWithEllipsis c.Author 17))
    ∧ (∃ row, getDisplayStringsForCommit E c cherryPicked diffed commitTemplate = some row
        ∧ ∀ j : Nat, (getListOfAllowedPartsFromCommitTemplate commitTemplate)[j]?
              = some AuthorCommitKey →
            row[j]? = some ((if j = 0 then actionLabel E c else "")
              ++ E.Sprint [FgYellow] (E.TruncateWithEllipsis c.Author 17)))
    ∧ (∀ name : String, name.length = 20 →
        (TruncateWithEllipsis name 17).length = 17
        ∧ TruncateWithEllipsis name 17 = String.mk (name.data.take 16) ++ "…")
    ∧ (∀ name : String, name.length ≤ 17 → TruncateWithEllipsis name 17 = name) := by
  have ha1 : AuthorCommitKey ≠ ShortShaCommitKey := by decide
  have ha2 : AuthorCommitKey ≠ MessageCommitKey := by decide
  refine ⟨?_, ?_, ?_, ?_⟩
  · rw [getFull_eq]
    rfl
  · obtain ⟨row, hrow, _, hcols⟩ := getDisplay_row E c cherryPicked diffed commitTemplate
    refine ⟨row, hrow, ?_⟩
    intro j hj
    rw [hcols j _ hj]
    simp [templateColumn, ha1, ha2]
  · intro name hlen
    have hgt : ¬ name.length ≤ 17 := by omega
    have hdata : name.data.length = 20 := hlen
    have htake : (name.data.take 16).length = 16 := by
      rw [List.length_take, hdata]
      rfl
    have hell : "…".length = 1 := by decide
    constructor
    · simp only [TruncateWithEllipsis, if_neg hgt, String.length_append, String.length_mk,
        htake, hell]
    · simp only [TruncateWithEllipsis, if_neg hgt]
  · intro name hlen
    simp only [TruncateWithEllipsis, if_pos hlen]

/-- Witness of C15: a name of 20 letters and a name of 3 letters. -/
theorem C15_author_truncated_yellow_witness :
    "abcdefghijklmnopqrst".length = 20
    ∧ TruncateWithEllipsis "abcdefghijklmnopqrst" 17 = "abcdefghijklmnop…"
    ∧ (TruncateWithEllipsis "abcdefghijklmnopqrst" 17).length = 17
    ∧ "ann".length ≤ 17
    ∧ TruncateWithEllipsis "ann" 17 = "ann"
    ∧ (getFullDescriptionDisplayStringsForCommit plainDeps
        { sampleCommit "aa" "pushed" with Author := "abcdefghijklmnopqrst" } noCherryPicks false
        "")[2]? = some "abcdefghijklmnop…" :=
  have h := C15_author_truncated_yellow plainDeps
    { sampleCommit "aa" "pushed" with Author := "abcdefghijklmnopqrst" } noCherryPicks false ""
  ⟨by decide, (h.2.2.1 "abcdefghijklmnopqrst" (by decide)).2.trans (by decide),
    (h.2.2.1 "abcdefghijklmnopqrst" (by decide)).1, by decide,
    h.2.2.2 "ann" (by decide), h.1.trans (by decide)⟩

/-- C16: the template layout never fails: for every commit and every
template, the empty and the unrecognized ones too, the parsed template and the
list of columns built from it are not empty, so `parts[0]` is in range and the
row is returned. -/
theorem C16_template_layout_never_fails (E : Deps) (c : Commit)
    (cherryPicked : String → Bool) (diffed : Bool) (commitTemplate : String) :
    getListOfAllowedPartsFromCommitTemplate commitTemplate ≠ []
    ∧ (∃ row, getDisplayStringsForCommit E c cherryPicked diffed commitTemplate = some row
        ∧ row ≠ [])
    ∧ (∃ row, getDisplayStringsForCommit E c cherryPicked diffed "" = some row
        ∧ row.length = 2)
    ∧ (∃ row, getDisplayStringsForCommit E c cherryPicked diffed "|bogus||sha" = some row
        ∧ row.length = 2) := by
  have hne := getList_ne_nil commitTemplate
  refine ⟨hne, ?_, ?_, ?_⟩
  · obtain ⟨row, hrow, hlen, _⟩ := getDisplay_row E c cherryPicked diffed commitTemplate
    refine ⟨row, hrow, ?_⟩
    intro hnil
    rw [hnil] at hlen
    exact hne (List.length_eq_zero.mp hlen.symm)
  · obtain ⟨row, hrow, hlen, _⟩ := getDisplay_row E c cherryPicked diffed ""
    exact ⟨row, hrow, hlen.trans (by decide)⟩
  · obtain ⟨row, hrow, hlen, _⟩ := getDisplay_row E c cherryPicked diffed "|bogus||sha"
    exact ⟨row, hrow, hlen.trans (by decide)⟩

/-- C17: in the full-description row the second column is the action, not
padded, in the colour of `actionColorMap` when the action is not empty, and
otherwise the date of the commit in blue, whether or not `ExtraInfo` is
empty. -/
theorem C17_full_description_second_column (E : Deps) (c : Commit)
    (cherryPicked : String → Bool) (diffed : Bool) (commitTemplate : String) :
    (c.Action ≠ "" →
      (getFullDescriptionDisplayStringsForCommit E c cherryPicked diffed commitTemplate)[1]?
        = some (E.Sprint [actionColorMap c.Action] c.Action))
    ∧ (c.Action = "" →
      (getFullDescriptionDisplayStringsForCommit E c cherryPicked diffed commitTemplate)[1]?
        = some (E.Sprint [FgBlue] (E.UnixToDate c.UnixTimestamp))) := by
  rw [getFull_eq]
  constructor
  · intro ha
    simp [ha]
  · intro ha
    simp [ha]

/-- Witness of C17: no action and some extra information give the date, an
action gives the action. -/
theorem C17_full_description_second_column_witness :
    ({ sampleCommit "aa" "pushed" with ExtraInfo := "HEAD" } : Commit).Action = ""
    ∧ (getFullDescriptionDisplayStringsForCommit plainDeps
        { sampleCommit "aa" "pushed" with ExtraInfo := "HEAD" } noCherryPicks false "")[1]?
      = some (plainDeps.Sprint [FgBlue] (plainDeps.UnixToDate 0))
    ∧ ({ sampleCommit "aa" "pushed" with Action := "edit", ExtraInfo := "HEAD" } : Commit).Action
        ≠ ""
    ∧ (getFullDescriptionDisplayStringsForCommit plainDeps
        { sampleCommit "aa" "pushed" with Action := "edit", ExtraInfo := "HEAD" } noCherryPicks
        false "")[1]? = some (plainDeps.Sprint [actionColorMap "edit"] "edit") :=
  ⟨rfl,
    (C17_full_description_second_column plainDeps
      { sampleCommit "aa" "pushed" with ExtraInfo := "HEAD" } noCherryPicks false "").2 rfl,
    by decide,
    (C17_full_description_second_column plainDeps
      { sampleCommit "aa" "pushed" with Action := "edit", ExtraInfo := "HEAD" } noCherryPicks
      false "").1 (by decide)⟩

/-- C18: in the full-description row the fourth column is the subject in the
default text style, after the extra-information label (bold magenta, then one
space) exactly when the action is empty and `ExtraInfo` is not; with an action
the fourth column is the subject alone, whatever `ExtraInfo` is. -/
theorem C18_full_description_fourth_column (E : Deps) (c : Commit)
    (cherryPicked : String → Bool) (diffed : Bool) (commitTemplate : String) :
    (c.Action = "" ∧ c.ExtraInfo ≠ "" →
      (getFullDescriptionDisplayStringsForCommit E c cherryPicked diffed commitTemplate)[3]?
        = some ((E.ColoredStringDirect c.ExtraInfo [FgMagenta, Bold] ++ " ")
            ++ E.Sprint [E.DefaultTextColor] c.Name))
    ∧ (¬ (c.Action = "" ∧ c.ExtraInfo ≠ "") →
      (getFullDescriptionDisplayStringsForCommit E c cherryPicked diffed commitTemplate)[3]?
        = some (E.Sprint [E.DefaultTextColor] c.Name))
    ∧ (c.Action ≠ "" →
      (getFullDescriptionDisplayStringsForCommit E c cherryPicked diffed commitTemplate)[3]?
        = some (E.Sprint [E.DefaultTextColor] c.Name)) := by
  rw [getFull_eq]
  refine ⟨?_, ?_, ?_⟩
  · intro h
    simp [h.1, h.2]
  · intro h
    simp only [List.getElem?_cons_succ, List.getElem?_cons_zero, if_neg h]
  · intro ha
    simp [ha]

/-- Witness of C18: extra information without an action is put before the
subject, and with an action it is not. -/
theorem C18_full_description_fourth_column_witness :
    (({ sampleCommit "aa" "pushed" with ExtraInfo := "HEAD" } : Commit).Action = ""
      ∧ ({ sampleCommit "aa" "pushed" with ExtraInfo := "HEAD" } : Commit).ExtraInfo ≠ "")
    ∧ (getFullDescriptionDisplayStringsForCommit plainDeps
        { sampleCommit "aa" "pushed" with ExtraInfo := "HEAD" } noCherryPicks false "")[3]?
      = some ("HEAD" ++ " " ++ "fix")
    ∧ ({ sampleCommit "aa" "pushed" with Action := "edit", ExtraInfo := "HEAD" } : Commit).Action
        ≠ ""
    ∧ (getFullDescriptionDisplayStringsForCommit plainDeps
        { sampleCommit "aa" "pushed" with Action := "edit", ExtraInfo := "HEAD" } noCherryPicks
        false "")[3]? = some "fix" :=
  ⟨⟨rfl, by decide⟩,
    ((C18_full_description_fourth_column plainDeps
      { sampleCommit "aa" "pushed" with ExtraInfo := "HEAD" } noCherryPicks false "").1
      ⟨rfl, by decide⟩).trans (by decide),
    by decide,
    (C18_full_description_fourth_column plainDeps
      { sampleCommit "aa" "pushed" with Action := "edit", ExtraInfo := "HEAD" } noCherryPicks
      false "").2.2 (by decide)⟩

/-- C19: in the template layout, for a commit whose action is not empty, no
message column has a tag in front of the subject, also when the commit has
tags: a message column at a position other than 0 is the subject in the
default text style, and a message column at position 0 is the action label
followed by the subject in the default text style. -/
theorem C19_action_excludes_tags (E : Deps) (c : Commit) (cherryPicked : String → Bool)
    (diffed : Bool) (commitTemplate : String) (ha : c.Action ≠ "") :
    ∃ row, getDisplayStringsForCommit E c cherryPicked diffed commitTemplate = some row
      ∧ ∀ j : Nat, (getListOfAllowedPartsFromCommitTemplate commitTemplate)[j]?
            = some MessageCommitKey →
          row[j]? = some
            (if j = 0 then
              (E.Sprint [actionColorMap c.Action] (E.WithPadding c.Action 7) ++ " ")
                ++ E.Sprint [E.DefaultTextColor] c.Name
            else E.Sprint [E.DefaultTextColor] c.Name) := by
  have hmsg : MessageCommitKey ≠ ShortShaCommitKey := by decide
  obtain ⟨row, hrow, _, hcols⟩ := getDisplay_row E c cherryPicked diffed commitTemplate
  refine ⟨row, hrow, ?_⟩
  intro j hj
  rw [hcols j _ hj]
  by_cases h0 : j = 0
  · simp [h0, actionLabel, templateColumn, tagLabel, ha, hmsg]
  · simp [h0, templateColumn, tagLabel, ha, hmsg]

/-- Witness of C19: a commit with the action `pick` and two tags. -/
theorem C19_action_excludes_tags_witness :
    ({ sampleCommit "aa" "pushed" with Action := "pick", Tags := ["v1.0", "release"] }
        : Commit).Action ≠ ""
    ∧ getDisplayStringsForCommit plainDeps
        { sampleCommit "aa" "pushed" with Action := "pick", Tags := ["v1.0", "release"] }
        noCherryPicks false "message|message" = some ["pick   " ++ " " ++ "fix", "fix"]
    ∧ ∃ row, getDisplayStringsForCommit plainDeps
          { sampleCommit "aa" "pushed" with Action := "pick", Tags := ["v1.0", "release"] }
          noCherryPicks false "message|message" = some row
        ∧ ∀ j : Nat, (getListOfAllowedPartsFromCommitTemplate "message|message")[j]?
              = some MessageCommitKey →
            row[j]? = some
              (if j = 0 then
                (plainDeps.Sprint [actionColorMap "pick"] (plainDeps.WithPadding "pick" 7) ++ " ")
                  ++ plainDeps.Sprint [plainDeps.DefaultTextColor] "fix"
              else plainDeps.Sprint [plainDeps.DefaultTextColor] "fix") :=
  ⟨by decide, by decide,
    C19_action_excludes_tags plainDeps
      { sampleCommit "aa" "pushed" with Action := "pick", Tags := ["v1.0", "release"] }
      noCherryPicks false "message|message" (by decide)⟩

/-- C20: the two layouts agree on the columns they share: for a commit with an
empty action, the one column of the template row for the template `short-sha`
is column 0 of the full-description row, and the one column of the template
row for the template `author` is column 2 of the full-description row. -/
theorem C20_layouts_agree (E : Deps) (c : Commit) (cherryPicked : String → Bool)
    (diffed : Bool) (commitTemplate : String) (ha : c.Action = "") :
    ∃ sha author : String,
      (getFullDescriptionDisplayStringsForCommit E c cherryPicked diffed commitTemplate)[0]?
        = some sha
      ∧ getDisplayStringsForCommit E c cherryPicked diffed "short-sha" = some [sha]
      ∧ (getFullDescriptionDisplayStringsForCommit E c cherryPicked diffed commitTemplate)[2]?
        = some author
      ∧ getDisplayStringsForCommit E c cherryPicked diffed "author" = some [author] := by
  have hk1 : getListOfAllowedPartsFromCommitTemplate "short-sha" = [ShortShaCommitKey] := by
    decide
  have hk2 : getListOfAllowedPartsFromCommitTemplate "author" = [AuthorCommitKey] := by decide
  have ha1 : AuthorCommitKey ≠ ShortShaCommitKey := by decide
  have ha2 : AuthorCommitKey ≠ MessageCommitKey := by decide
  refine ⟨E.Sprint (shaStyle E c cherryPicked diffed) (E.ShortSha c.Sha),
    E.Sprint [FgYellow] (E.TruncateWithEllipsis c.Author 17), ?_, ?_, ?_, ?_⟩
  · rw [getFull_eq]
    rfl
  · rw [getDisplay_eq, hk1]
    simp [actionLabel, templateColumn, ha]
  · rw [getFull_eq]
    rfl
  · rw [getDisplay_eq, hk2]
    simp [actionLabel, templateColumn, ha, ha1, ha2]

/-- Witness of C20: a merged commit that is cherry-picked. -/
theorem C20_layouts_agree_witness :
    (sampleCommit "aa" "merged").Action = ""
    ∧ ∃ sha author : String,
      (getFullDescriptionDisplayStringsForCommit stdDeps (sampleCommit "aa" "merged")
          (fun _ => true) false "message")[0]? = some sha
      ∧ getDisplayStringsForCommit stdDeps (sampleCommit "aa" "merged") (fun _ => true) false
          "short-sha" = some [sha]
      ∧ (getFullDescriptionDisplayStringsForCommit stdDeps (sampleCommit "aa" "merged")
          (fun _ => true) false "message")[2]? = some author
      ∧ getDisplayStringsForCommit stdDeps (sampleCommit "aa" "merged") (fun _ => true) false
          "author" = some [author] :=
  ⟨rfl, C20_layouts_agree stdDeps (sampleCommit "aa" "merged") (fun _ => true) false "message"
    rfl⟩

end Presentation
